import Mathlib

/-
Verification development for the ConditionalGraph repository.

The embedding mirrors `abstractions.py` (the generic stateful graph:
`GenericStatefulGraph`, `EdgeSet`, the `state_cache` class attribute, `connect`,
`connections`, `_traverse`/`traverse`) specialized by `flow_pathing_example.py`
(`Segment`, the class-wide `_nodes` registry, `volume_to`, `duration_to`,
`_build_flow_rates_between`, `time_from`, `check_flow_stability_from`).

Modelling conventions:
- A Python object is identified by a natural-number id: `World.nodes` is the
  list of all `Segment` objects ever constructed, indexed by id.  Python sets
  of node references become duplicate-free lists of ids (insertion order);
  Python dicts become association lists (insertion order, `setdefault` adds
  at the end exactly as Python does).
- The class attributes `GenericStatefulGraph.state_cache` and `Segment._nodes`
  are process-wide, so they live in `World` (shared by every node).
- Python floats (volumes, flow rates) are modelled as rationals; the float
  sentinel `-Inf` used by `check_flow_stability_from` is modelled as `none` in
  an `Option ℚ`, `max` with `-Inf` being `Option`-max.
- Exceptions (`RuntimeError` for ambiguous paths, `TimeoutError` for
  non-convergence, `LookupError`) become an `Except FlowErr` result; functions
  that mutate object state additionally return the final `World`, because a
  Python exception propagates while leaving all mutations in place.
- Reading `state_cache[state_id]` for an unset id would raise `KeyError` in
  Python; that access path is unreachable (every id added to `_state_ids` is
  simultaneously `setdefault`-ed into `state_cache`), and the model returns the
  empty edge set there.
-/

/-- Insert an element into a duplicate-free list (Python `set.add`). -/
def listInsert {α : Type} [DecidableEq α] (a : α) (l : List α) : List α :=
  if a ∈ l then l else l ++ [a]

/-- Union of two duplicate-free lists (Python `set.__or__`). -/
def listUnion {α : Type} [DecidableEq α] (l₁ l₂ : List α) : List α :=
  l₂.foldl (fun acc a => listInsert a acc) l₁

/-- Association-list lookup (Python `dict.get` / `dict.__getitem__`). -/
def alistGet {κ β : Type} [DecidableEq κ] (k : κ) : List (κ × β) → Option β
  | [] => none
  | (k', v) :: rest => if k = k' then some v else alistGet k rest

/-- Association-list overwrite (Python `dict.__setitem__`). -/
def alistSet {κ β : Type} [DecidableEq κ] (k : κ) (v : β) : List (κ × β) → List (κ × β)
  | [] => [(k, v)]
  | (k', v') :: rest => if k = k' then (k, v) :: rest else (k', v') :: alistSet k v rest

/-- Association-list `setdefault`: insert only when the key is absent. -/
def alistSetdefault {κ β : Type} [DecidableEq κ] (k : κ) (v : β) (l : List (κ × β)) :
    List (κ × β) :=
  match alistGet k l with
  | some _ => l
  | none => l ++ [(k, v)]

/-- The distinguished state bucket for unconditional edges (`CONSISTENT`). -/
def CONSISTENT : String := "consistent"

/-- `EdgeSet`: the pair of child and parent reference sets of one state bucket. -/
structure EdgeSet where
  children : List Nat
  parents : List Nat
deriving DecidableEq, Repr

def EdgeSet.empty : EdgeSet := ⟨[], []⟩

/-- `EdgeSet.__add__`: per-side union. -/
def EdgeSet.add (e₁ e₂ : EdgeSet) : EdgeSet :=
  ⟨listUnion e₁.children e₂.children, listUnion e₁.parents e₂.parents⟩

/-- Per-object state of one `Segment`: its `Volume` payload (`name`, `volume`,
`_flow_rate`) together with the `GenericStatefulGraph` fields `_state_ids` and
`_connections`. -/
structure NodeData where
  name : String
  volume : ℚ
  flowRate : ℚ
  stateIds : List String
  conns : List (String × EdgeSet)
deriving DecidableEq, Repr

instance : Inhabited NodeData := ⟨⟨"", 0, 0, [], []⟩⟩

/-- The process-wide state: every constructed node, plus the two class
attributes `GenericStatefulGraph.state_cache` and `Segment._nodes`. -/
structure World where
  stateCache : List (String × String)
  nodes : List NodeData
  registry : List (String × Nat)
deriving DecidableEq, Repr

def emptyWorld : World := ⟨[], [], []⟩

/-- `Segment.__init__`: constructing a node allocates a fresh object with the
`CONSISTENT` bucket present; it touches neither `state_cache` nor `_nodes`. -/
def newSegment (w : World) (name : String) (volume : ℚ) : World × Nat :=
  ({ w with nodes := w.nodes ++
      [{ name := name, volume := volume, flowRate := 0, stateIds := [],
         conns := [(CONSISTENT, EdgeSet.empty)] }] },
   w.nodes.length)

def getNode (w : World) (i : Nat) : NodeData := w.nodes.getD i default

def segName (w : World) (i : Nat) : String := (getNode w i).name

def segRate (w : World) (i : Nat) : ℚ := (getNode w i).flowRate

def segVolume (w : World) (i : Nat) : ℚ := (getNode w i).volume

def setSegRate (w : World) (i : Nat) (r : ℚ) : World :=
  { w with nodes := w.nodes.set i { getNode w i with flowRate := r } }

/-- `GenericStatefulGraph.set_state`: unconditional overwrite of the shared
state cache. -/
def setState (w : World) (gid st : String) : World :=
  { w with stateCache := alistSet gid st w.stateCache }

/-- The node-local part of `GenericStatefulGraph._add_child`. -/
def bucketAddChild (nd : NodeData) (c : Nat) (gid : Option String) (st : String) : NodeData :=
  let nd := match gid with
    | none => nd
    | some g => { nd with stateIds := listInsert g nd.stateIds }
  let cs := alistSetdefault st EdgeSet.empty nd.conns
  let es := (alistGet st cs).getD EdgeSet.empty
  { nd with conns := alistSet st { es with children := listInsert c es.children } cs }

/-- The node-local part of `GenericStatefulGraph._add_parent`. -/
def bucketAddParent (nd : NodeData) (p : Nat) (gid : Option String) (st : String) : NodeData :=
  let nd := match gid with
    | none => nd
    | some g => { nd with stateIds := listInsert g nd.stateIds }
  let cs := alistSetdefault st EdgeSet.empty nd.conns
  let es := (alistGet st cs).getD EdgeSet.empty
  { nd with conns := alistSet st { es with parents := listInsert p es.parents } cs }

/-- `state_cache.setdefault(component_state_id, state_name)` when a state
constraint is present. -/
def cacheSetdefault (w : World) (gid : Option String) (st : String) : World :=
  match gid with
  | none => w
  | some g => { w with stateCache := alistSetdefault g st w.stateCache }

/-- `Segment._add_child`: the generic `_add_child` (state registration, cache
setdefault, bucket insertion) followed by `self._nodes.setdefault(child.name,
child)`. -/
def addChild (w : World) (i c : Nat) (gid : Option String) (st : String) : World :=
  let w := cacheSetdefault w gid st
  let w := { w with nodes := w.nodes.set i (bucketAddChild (getNode w i) c gid st) }
  { w with registry := alistSetdefault (segName w c) c w.registry }

/-- `Segment._add_parent`, with `self._nodes.setdefault(parent.name, parent)`. -/
def addParent (w : World) (i p : Nat) (gid : Option String) (st : String) : World :=
  let w := cacheSetdefault w gid st
  let w := { w with nodes := w.nodes.set i (bucketAddParent (getNode w i) p gid st) }
  { w with registry := alistSetdefault (segName w p) p w.registry }

/-- `GenericStatefulGraph.connect` for a single target.  `dir` is the
`Direction` IntEnum value: DOWN = -1, UP = 1, BOTH = 0. -/
def connect (w : World) (i t : Nat) (forState : Option (String × String)) (dir : Int) : World :=
  let gs : Option String × String := match forState with
    | none => (none, CONSISTENT)
    | some (g, s) => (some g, s)
  let w := if dir ≤ 0 then addParent (addChild w i t gs.1 gs.2) t i gs.1 gs.2 else w
  if dir ≥ 0 then addChild (addParent w i t gs.1 gs.2) t i gs.1 gs.2 else w

/-- The bucket consulted for one state-group id in the resolved view:
`self._connections.get(self.state_cache[state_id], EdgeSet())`.  A cache miss
(`KeyError` in Python) is unreachable and modelled as the empty edge set. -/
def stateBucket (w : World) (nd : NodeData) (gid : String) : EdgeSet :=
  match alistGet gid w.stateCache with
  | none => EdgeSet.empty
  | some st => (alistGet st nd.conns).getD EdgeSet.empty

/-- `GenericStatefulGraph.connections`. -/
def connections (w : World) (i : Nat) (ignoreState : Bool) : EdgeSet :=
  let nd := getNode w i
  if ignoreState then
    (nd.conns.map Prod.snd).foldl EdgeSet.add EdgeSet.empty
  else
    (nd.stateIds.map (stateBucket w nd)).foldl EdgeSet.add
      ((alistGet CONSISTENT nd.conns).getD EdgeSet.empty)

/-- `has_children`: the cardinality of the resolved child set. -/
def hasChildren (w : World) (i : Nat) (ign : Bool) : Nat :=
  (connections w i ign).children.length

/-- `has_parents`: the cardinality of the resolved parent set. -/
def hasParents (w : World) (i : Nat) (ign : Bool) : Nat :=
  (connections w i ign).parents.length

/-- The default `traverse` condition, `lambda n: not n.has_children`.  In the
source, `n.has_children` is an uncalled bound method — a truthy object — so the
lambda is constantly `False` (it never calls `has_children`). -/
def defaultCondition (w : World) (i : Nat) : Bool :=
  let boundMethodIsTruthy := true
  !boundMethodIsTruthy

/-- Concatenate the (results, visit-log) pairs of the recursive calls made for
the neighbors of one node, in order. -/
def mergePairs {α β : Type} (l : List (List α × List β)) : List α × List β :=
  l.foldr (fun p acc => (p.1 ++ acc.1, p.2 ++ acc.2)) ([], [])

/-- `GenericStatefulGraph._traverse`.  `visited` and `path` are the shared
mutable set and list of the source; because every recursive call removes from
`visited` and pops from `path` exactly what it added, each sibling call starts
from the same `visited`/`path`, which is what this functional form passes down.
The second component logs every node entry (each time the source executes
`visited.add(self)`), in order.  `fuel` only forces termination; the wrapper
passes more fuel than any simple path can consume. -/
def dfs (w : World) (t : Nat → Bool) (dir : Int) (ign : Bool) :
    Nat → Nat → List Nat → List Nat → List (Nat × List Nat) × List Nat
  | 0, _, _, _ => ([], [])
  | fuel + 1, i, visited, path =>
    let es := connections w i ign
    let sp := listUnion (if dir ≤ 0 then es.children else [])
                        (if dir ≥ 0 then es.parents else [])
    let visited' := listInsert i visited
    let path' := path ++ [i]
    let sub := mergePairs (sp.map fun nb =>
      if nb ∈ visited' then (([], []) : List (Nat × List Nat) × List Nat)
      else dfs w t dir ign fuel nb visited' path')
    ((if t i then [(i, path')] else []) ++ sub.1, i :: sub.2)

/-- The condition actually used by `traverse`: the caller's, or the (buggy)
default when none is supplied. -/
def resolveCond (w : World) (cond : Option (Nat → Bool)) : Nat → Bool :=
  match cond with
  | none => fun j => defaultCondition w j
  | some f => f

/-- `GenericStatefulGraph.traverse`. -/
def traverse (w : World) (i : Nat) (cond : Option (Nat → Bool)) (dir : Int) (ign : Bool) :
    List (Nat × List Nat) :=
  (dfs w (resolveCond w cond) dir ign (w.nodes.length + 1) i [] []).1

/-- The visit log of one `traverse` call (one entry per execution of
`visited.add(self)` in `_traverse`). -/
def traverseLog (w : World) (i : Nat) (cond : Option (Nat → Bool)) (dir : Int) (ign : Bool) :
    List Nat :=
  (dfs w (resolveCond w cond) dir ign (w.nodes.length + 1) i [] []).2

/-- The error taxonomy: `RuntimeError` for multiple paths (AmbiguousPathError),
`TimeoutError` for a non-converging fixed point (NonConvergenceError), and
`LookupError` for an unknown target name. -/
inductive FlowErr where
  | ambiguousPath
  | nonConvergence
  | lookupFailure
deriving DecidableEq, Repr

deriving instance DecidableEq for Except

/-- `Segment.volume_to`. -/
def volumeTo (w : World) (i : Nat) (targetName : String) (dir : Int) :
    Except FlowErr (Option ℚ) :=
  match traverse w i (some fun j => segName w j == targetName) dir false with
  | [] => .ok none
  | (fin, p) :: other =>
    if other.isEmpty then
      .ok (some ((p.foldl (fun acc j => acc + segVolume w j) 0) - segVolume w fin))
    else
      .error .ambiguousPath

/-- `Segment.duration`: volume over flow rate, 0 below the 1e-5 cutoff. -/
def segDuration (w : World) (i : Nat) : ℚ :=
  if segRate w i < 1 / 100000 then 0 else segVolume w i / segRate w i

/-- `Segment.duration_to`. -/
def durationTo (w : World) (i : Nat) (targetName : String) (dir : Int) :
    Except FlowErr (Option ℚ) :=
  match traverse w i (some fun j => segName w j == targetName) dir false with
  | [] => .ok none
  | (fin, p) :: other =>
    if other.isEmpty then
      .ok (some ((p.foldl (fun acc j => acc + segDuration w j) 0) - segDuration w fin))
    else
      .error .ambiguousPath

/-- `Segment.reset_flow_rates`: zero the rate of every node in the shared
registry. -/
def resetFlowRates (w : World) : World :=
  w.registry.foldl (fun acc p => setSegRate acc p.2 0) w

/-- Seed the named sources (`source.data._flow_rate = source_flow_rate`),
silently skipping names absent from the registry. -/
def seedRates (w : World) (src : List (String × ℚ)) : World :=
  src.foldl (fun acc p =>
    match alistGet p.1 acc.registry with
    | none => acc
    | some j => setSegRate acc j p.2) w

/-- One source of the path-collection loop of `_build_flow_rates_between`:
resolve the source by name, traverse to the target, enforce path uniqueness,
and record the path's intermediate nodes (skipping the target and every node
whose name is a source name) into the `path_elements` insertion-ordered dict. -/
def scanStep (w : World) (targetName : String) (srcNames : List String)
    (acc : List Nat × List (List Nat) × List (String × Nat)) (n : String) :
    Except FlowErr (List Nat × List (List Nat) × List (String × Nat)) :=
  match alistGet n w.registry with
  | none => .ok acc
  | some s =>
    match traverse w s (some fun j => segName w j == targetName) (-1) false with
    | [] => .ok acc
    | (_, path) :: other =>
      if other.isEmpty then
        let elems := path.foldl (fun es j =>
          if segName w j == targetName || srcNames.contains (segName w j) then es
          else alistSetdefault (segName w j) j es) acc.2.2
        .ok (listInsert s acc.1, acc.2.1 ++ [path], elems)
      else
        .error .ambiguousPath

/-- The whole path-collection loop: valid sources, their paths, and the
`path_elements` dict. -/
def sourceScan (w : World) (targetName : String) (src : List (String × ℚ)) :
    Except FlowErr (List Nat × List (List Nat) × List (String × Nat)) :=
  src.foldlM (fun acc p => scanStep w targetName (src.map Prod.fst) acc p.1) ([], [], [])

/-- One full pass of the fixed-point iteration: sequentially set each
intermediate node's rate to the sum of its resolved parents' current rates,
recording which nodes changed. -/
def passRun (w : World) : List Nat → World × List Bool
  | [] => (w, [])
  | e :: rest =>
    let old := segRate w e
    let nv := (connections w e false).parents.foldl (fun acc p => acc + segRate w p) 0
    if old == nv then
      let r := passRun w rest
      (r.1, false :: r.2)
    else
      let r := passRun (setSegRate w e nv) rest
      (r.1, true :: r.2)

/-- The do-while fixed-point loop with its iteration cap.  `fpLoop elems 1000`
runs pass k with fuel 1001 - k, so the `TimeoutError` of the source (raised
after a pass when `_iterations > 1000`) is the `fuel = 0` case, reached after
pass 1001 regardless of whether that pass still changed anything. -/
def fpLoop (elems : List Nat) : Nat → World → World × Bool
  | 0, w => ((passRun w elems).1, false)
  | fuel + 1, w =>
    let r := passRun w elems
    if r.2.any (fun b => b) then fpLoop elems fuel r.1 else (r.1, true)

/-- `Segment._build_flow_rates_between`.  The returned `World` is the state in
which the call ends, also when it raises. -/
def buildFlowRates (w : World) (targetName : String) (src : List (String × ℚ)) :
    Except FlowErr (List Nat × List (List Nat)) × World :=
  match alistGet targetName w.registry with
  | none => (.error .lookupFailure, w)
  | some _ =>
    let w := resetFlowRates w
    let w := seedRates w src
    match sourceScan w targetName src with
    | .error e => (.error e, w)
    | .ok (sources, paths, elems) =>
      match fpLoop (elems.map Prod.snd) 1000 w with
      | (w', true) => (.ok (sources, paths), w')
      | (w', false) => (.error .nonConvergence, w')

/-- Durations from each valid source to the query point, in order; the first
raised exception propagates. -/
def durationsOf (w : World) (sources : List Nat) (tn : String) :
    Except FlowErr (List (Option ℚ)) :=
  sources.mapM (fun s => durationTo w s tn (-1))

/-- Python `max(durations, default=Minutes(0))` over `duration_to` results.
On an empty list the default 0 is returned; a `none` among two or more entries
would be a `TypeError` in the source (unreachable: every valid source has a
path) and is modelled as `none`. -/
def pyMaxDur (l : List (Option ℚ)) : Option ℚ :=
  match l with
  | [] => some 0
  | x :: xs => xs.foldl (fun a b =>
      match a, b with
      | some a', some b' => some (max a' b')
      | _, _ => none) x

/-- `Segment.time_from`.  `LookupError` is caught and becomes `none`; the other
exceptions propagate.  The rates are reset only on the normal return path. -/
def timeFrom (w : World) (i : Nat) (src : List (String × ℚ)) :
    Except FlowErr (Option ℚ) × World :=
  match buildFlowRates w (segName w i) src with
  | (.error .lookupFailure, w') => (.ok none, w')
  | (.error e, w') => (.error e, w')
  | (.ok (sources, _), w') =>
    match durationsOf w' sources (segName w i) with
    | .error e => (.error e, w')
    | .ok ds => (.ok (pyMaxDur ds), resetFlowRates w')

/-- The strictly-positive inlet rates of one node's resolved parents
(`[_p.flow_rate for _p in segment.connections().parents if _p.flow_rate > 0]`). -/
def inletsOf (w : World) (i : Nat) : List ℚ :=
  (connections w i false).parents.filterMap (fun p =>
    let r := segRate w p
    if 0 < r then some r else none)

/-- One segment of the stability scan of `check_flow_stability_from`: skip when
no positive inlets, otherwise fold the max/min inlet quotient into the running
worst value (`none` models the float `-Inf` start) and the over-threshold set. -/
def stabilityStep (w : World) (critical : ℚ) (acc : List String × Option ℚ) (i : Nat) :
    List String × Option ℚ :=
  match inletsOf w i with
  | [] => acc
  | r :: rs =>
    let mx := rs.foldl max r
    let mn := rs.foldl min r
    let fq := mx / mn
    let lg : Option ℚ := match acc.2 with
      | none => some fq
      | some l => some (max l fq)
    (if critical < fq then listInsert (segName w i) acc.1 else acc.1, lg)

/-- The full double loop over all collected paths. -/
def stabilityScan (w : World) (critical : ℚ) (paths : List (List Nat)) :
    List String × Option ℚ :=
  paths.foldl (fun acc path => path.foldl (stabilityStep w critical) acc) ([], none)

/-- `Segment.check_flow_stability_from`. -/
def checkFlowStability (w : World) (i : Nat) (critical : ℚ) (src : List (String × ℚ)) :
    Except FlowErr (Option (List String × Option ℚ)) × World :=
  match buildFlowRates w (segName w i) src with
  | (.error .lookupFailure, w') => (.ok none, w')
  | (.error e, w') => (.error e, w')
  | (.ok (_, paths), w') =>
    (.ok (some (stabilityScan w' critical paths)), resetFlowRates w')

/-! Concrete builds used by the example-level theorems.  Each is a trace of
constructor and `connect` calls starting from the empty process state; ids are
allocation order. -/

/-- Two fresh nodes A (id 0) and B (id 1), no edges yet, no state ever set. -/
def wPair : World := (newSegment (newSegment emptyWorld "A" 0).1 "B" 0).1

/-- `A.connect(B, for_state=("g", "s"))` on `wPair`: a single state-constrained
edge, with no `set_state` call anywhere in the trace. -/
def wC1 : World := connect wPair 0 1 (some ("g", "s")) (-1)

/-- A single childless node (id 0), a leaf. -/
def wLeaf : World := (newSegment emptyWorld "A" 5).1

/-- Diamond: A (0) → B (1) → D (3) and A → C (2) → D, all unconditional. -/
def wDiamond : World :=
  let w := (newSegment (newSegment (newSegment (newSegment emptyWorld
    "A" 0).1 "B" 0).1 "C" 0).1 "D" 0).1
  let w := connect w 0 1 none (-1)
  let w := connect w 0 2 none (-1)
  let w := connect w 1 3 none (-1)
  connect w 2 3 none (-1)

/-- Two disjoint routes: S (0) → A (1) → T (3) and S → B (2) → T. -/
def wTwoRoutes : World :=
  let w := (newSegment (newSegment (newSegment (newSegment emptyWorld
    "S" 0).1 "A" 0).1 "B" 0).1 "T" 0).1
  let w := connect w 0 1 none (-1)
  let w := connect w 1 3 none (-1)
  let w := connect w 0 2 none (-1)
  connect w 2 3 none (-1)

/-- Linear chain S (0, 10 uL) → A (1, 20 uL) → T (2, 30 uL). -/
def wChain : World :=
  let w := (newSegment (newSegment (newSegment emptyWorld
    "S" 10).1 "A" 20).1 "T" 30).1
  let w := connect w 0 1 none (-1)
  connect w 1 2 none (-1)

/-- `wChain` with the source seeded at 60, as it stands when the stability
scan of `check_flow_stability_from` would run. -/
def wChainSeeded : World := setSegRate wChain 0 60

/-- Cyclic parent relation: S (0) → A (1) → B (2) → T (3) plus B → A, so A's
parents are S and B while B's parent is A — the fixed point diverges. -/
def wCyc : World :=
  let w := (newSegment (newSegment (newSegment (newSegment emptyWorld
    "S" 0).1 "A" 0).1 "B" 0).1 "T" 0).1
  let w := connect w 0 1 none (-1)
  let w := connect w 1 2 none (-1)
  let w := connect w 2 3 none (-1)
  connect w 2 1 none (-1)

/-- Chain A (0, 5 uL) → B (1, 7 uL), for the single-path query example. -/
def wAB : World :=
  connect (newSegment (newSegment emptyWorld "A" 5).1 "B" 7).1 0 1 none (-1)

/-- Two independently built graphs reusing the name "X": graph 1 is X (id 0,
volume 1) → Y (id 1); graph 2 is a fresh X (id 2, volume 2) → Z (id 3). -/
def wShared : World :=
  let w := (newSegment (newSegment emptyWorld "X" 1).1 "Y" 0).1
  let w := connect w 0 1 none (-1)
  let w := (newSegment (newSegment w "X" 2).1 "Z" 0).1
  connect w 2 3 none (-1)

/-- Every edge of every node points at an allocated id.  True of every world a
Python run can reach (edges hold references to live objects); stated as a
boolean so concrete instances evaluate. -/
def wfBoundedB (w : World) : Bool :=
  (List.range w.nodes.length).all fun j =>
    (getNode w j).conns.all fun pe =>
      pe.2.children.all (fun x => decide (x < w.nodes.length)) &&
      pe.2.parents.all (fun x => decide (x < w.nodes.length))

/-- The state of `wCyc` as it stands when the fixed-point loop of
`_build_flow_rates_between` starts, with the intermediate rates of A and B
abstracted: the source S is seeded at 60 and the loop iterates on A and B. -/
def cycRates (a b : ℚ) : World :=
  ⟨[],
   [⟨"S", 0, 60, [], [(CONSISTENT, ⟨[1], []⟩)]⟩,
    ⟨"A", 0, a, [], [(CONSISTENT, ⟨[2], [0, 2]⟩)]⟩,
    ⟨"B", 0, b, [], [(CONSISTENT, ⟨[3, 1], [1]⟩)]⟩,
    ⟨"T", 0, 0, [], [(CONSISTENT, ⟨[], [2]⟩)]⟩],
   [("A", 1), ("S", 0), ("B", 2), ("T", 3)]⟩

/-- The state of `wChain` during its propagation query, with A's rate
abstracted: S seeded at 60, the loop iterates on A alone. -/
def chainRates (a : ℚ) : World :=
  ⟨[],
   [⟨"S", 10, 60, [], [(CONSISTENT, ⟨[1], []⟩)]⟩,
    ⟨"A", 20, a, [], [(CONSISTENT, ⟨[2], [0]⟩)]⟩,
    ⟨"T", 30, 0, [], [(CONSISTENT, ⟨[], [1]⟩)]⟩],
   [("A", 1), ("S", 0), ("T", 2)]⟩

/-! Helper lemmas about the container operations. -/

theorem mem_listInsert {α : Type} [DecidableEq α] {x a : α} {l : List α} :
    x ∈ listInsert a l ↔ x = a ∨ x ∈ l := by
  unfold listInsert
  split
  · constructor
    · exact fun h => Or.inr h
    · rintro (rfl | h)
      · assumption
      · assumption
  · simp [or_comm]

theorem mem_listUnion {α : Type} [DecidableEq α] {x : α} :
    ∀ {l₂ l₁ : List α}, x ∈ listUnion l₁ l₂ ↔ x ∈ l₁ ∨ x ∈ l₂ := by
  intro l₂
  induction l₂ with
  | nil => simp [listUnion]
  | cons a t ih =>
    intro l₁
    show x ∈ listUnion (listInsert a l₁) t ↔ _
    rw [ih, mem_listInsert]
    simp
    tauto

theorem mem_mergePairs_fst {α β : Type} {x : α} :
    ∀ {l : List (List α × List β)}, x ∈ (mergePairs l).1 ↔ ∃ p ∈ l, x ∈ p.1 := by
  intro l
  induction l with
  | nil => simp [mergePairs]
  | cons a t ih =>
    show x ∈ a.1 ++ (mergePairs t).1 ↔ _
    rw [List.mem_append, ih]
    simp

theorem alistGet_mem_map_snd {κ β : Type} [DecidableEq κ] {k : κ} {v : β} :
    ∀ {l : List (κ × β)}, alistGet k l = some v → v ∈ l.map Prod.snd := by
  intro l
  induction l with
  | nil => intro h; simp [alistGet] at h
  | cons a t ih =>
    obtain ⟨k', v'⟩ := a
    intro h
    simp only [alistGet] at h
    split at h
    · simp at h
      simp [h]
    · simp [ih h]

theorem alistGet_append_self {κ β : Type} [DecidableEq κ] {k : κ} {v : β} :
    ∀ {l : List (κ × β)}, alistGet k l = none → alistGet k (l ++ [(k, v)]) = some v := by
  intro l
  induction l with
  | nil => intro _; simp [alistGet]
  | cons a t ih =>
    obtain ⟨k', v'⟩ := a
    intro h
    simp only [alistGet, List.cons_append] at h ⊢
    split at h
    · exact absurd h (by simp)
    · simp_all [ih h]

theorem alistGet_setdefault_self {κ β : Type} [DecidableEq κ] {k : κ} {v : β}
    {l : List (κ × β)} :
    alistGet k (alistSetdefault k v l) = some ((alistGet k l).getD v) := by
  unfold alistSetdefault
  rcases h : alistGet k l with _ | v₀
  · simpa using alistGet_append_self (v := v) h
  · simpa using h

theorem alistSetdefault_of_present {κ β : Type} [DecidableEq κ] {k : κ} {v v₀ : β}
    {l : List (κ × β)} (h : alistGet k l = some v₀) :
    alistSetdefault k v l = l := by
  unfold alistSetdefault
  rw [h]

/-! Membership through sums of edge sets. -/

theorem foldlAdd_children_mem {x : Nat} :
    ∀ {l : List EdgeSet} {e₀ : EdgeSet},
      x ∈ (l.foldl EdgeSet.add e₀).children ↔ x ∈ e₀.children ∨ ∃ es ∈ l, x ∈ es.children := by
  intro l
  induction l with
  | nil => simp
  | cons a t ih =>
    intro e₀
    show x ∈ (t.foldl EdgeSet.add (e₀.add a)).children ↔ _
    rw [ih]
    show x ∈ listUnion e₀.children a.children ∨ _ ↔ _
    rw [mem_listUnion]
    simp
    tauto

theorem foldlAdd_parents_mem {x : Nat} :
    ∀ {l : List EdgeSet} {e₀ : EdgeSet},
      x ∈ (l.foldl EdgeSet.add e₀).parents ↔ x ∈ e₀.parents ∨ ∃ es ∈ l, x ∈ es.parents := by
  intro l
  induction l with
  | nil => simp
  | cons a t ih =>
    intro e₀
    show x ∈ (t.foldl EdgeSet.add (e₀.add a)).parents ↔ _
    rw [ih]
    show x ∈ listUnion e₀.parents a.parents ∨ _ ↔ _
    rw [mem_listUnion]
    simp
    tauto

/-- Every edge set consulted by the resolved (`ignore_state = false`) view is
either the `CONSISTENT` bucket, a state bucket, or empty — so each of its
members also occurs in some bucket of `_connections`. -/
theorem connections_resolved_mem_bucket {w : World} {i : Nat} {x : Nat} :
    (x ∈ (connections w i false).children →
      ∃ es ∈ (getNode w i).conns.map Prod.snd, x ∈ es.children)
    ∧ (x ∈ (connections w i false).parents →
      ∃ es ∈ (getNode w i).conns.map Prod.snd, x ∈ es.parents) := by
  constructor
  · intro hx
    rw [show connections w i false =
        ((getNode w i).stateIds.map (stateBucket w (getNode w i))).foldl EdgeSet.add
          ((alistGet CONSISTENT (getNode w i).conns).getD EdgeSet.empty) from rfl,
      foldlAdd_children_mem] at hx
    rcases hx with hx | ⟨es, hes, hx⟩
    · rcases h : alistGet CONSISTENT (getNode w i).conns with _ | es₀
      · rw [h] at hx
        simp [EdgeSet.empty] at hx
      · rw [h] at hx
        exact ⟨es₀, alistGet_mem_map_snd h, hx⟩
    · rcases List.mem_map.mp hes with ⟨gid, _, rfl⟩
      unfold stateBucket at hx
      split at hx
      · simp [EdgeSet.empty] at hx
      · rcases h : alistGet _ (getNode w i).conns with _ | es₁
        · rw [h] at hx
          simp [EdgeSet.empty] at hx
        · rw [h] at hx
          exact ⟨es₁, alistGet_mem_map_snd h, hx⟩
  · intro hx
    rw [show connections w i false =
        ((getNode w i).stateIds.map (stateBucket w (getNode w i))).foldl EdgeSet.add
          ((alistGet CONSISTENT (getNode w i).conns).getD EdgeSet.empty) from rfl,
      foldlAdd_parents_mem] at hx
    rcases hx with hx | ⟨es, hes, hx⟩
    · rcases h : alistGet CONSISTENT (getNode w i).conns with _ | es₀
      · rw [h] at hx
        simp [EdgeSet.empty] at hx
      · rw [h] at hx
        exact ⟨es₀, alistGet_mem_map_snd h, hx⟩
    · rcases List.mem_map.mp hes with ⟨gid, _, rfl⟩
      unfold stateBucket at hx
      split at hx
      · simp [EdgeSet.empty] at hx
      · rcases h : alistGet _ (getNode w i).conns with _ | es₁
        · rw [h] at hx
          simp [EdgeSet.empty] at hx
        · rw [h] at hx
          exact ⟨es₁, alistGet_mem_map_snd h, hx⟩

/-- Claim C8: for every node and any registry contents, the full
(`ignore_state = true`) view of `connections` contains the resolved
(`ignore_state = false`) view, on the children side and on the parents side. -/
theorem c8_fullView_contains_resolved : ∀ (w : World) (i : Nat),
    (connections w i false).children ⊆ (connections w i true).children
    ∧ (connections w i false).parents ⊆ (connections w i true).parents := by
  intro w i
  constructor
  · intro x hx
    rcases connections_resolved_mem_bucket.1 hx with ⟨es, hes, hxe⟩
    show x ∈ (((getNode w i).conns.map Prod.snd).foldl EdgeSet.add EdgeSet.empty).children
    rw [foldlAdd_children_mem]
    exact Or.inr ⟨es, hes, hxe⟩
  · intro x hx
    rcases connections_resolved_mem_bucket.2 hx with ⟨es, hes, hxe⟩
    show x ∈ (((getNode w i).conns.map Prod.snd).foldl EdgeSet.add EdgeSet.empty).parents
    rw [foldlAdd_parents_mem]
    exact Or.inr ⟨es, hes, hxe⟩

/-- Witness for C8 at a concrete node of a concrete world. -/
theorem c8_witness :
    (connections wC1 0 false).children ⊆ (connections wC1 0 true).children :=
  (c8_fullView_contains_resolved wC1 0).1

/-! State-cache behaviour of `connect` (claim C1). -/

/-- Counterexample to claim C1.  Starting from a process state in which no
`set_state` call was ever made (the trace building `wC1` consists of two
constructors and one `connect` under `("g", "s")`), the connect call itself
installed `"s"` as the active value of group `"g"` (via
`state_cache.setdefault`), and the resolved view of node 0 already consults
bucket `"s"`: its resolved child set is `[1]` although its `CONSISTENT` bucket
is empty. -/
theorem c1_counterexample :
    alistGet "g" wC1.stateCache = some "s"
    ∧ (connections wC1 0 false).children = [1]
    ∧ ((alistGet CONSISTENT (getNode wC1 0).conns).getD EdgeSet.empty).children = [] := by
  refine ⟨by decide, by decide, by decide⟩

theorem addChild_stateCache (w : World) (i c : Nat) (g s : String) :
    (addChild w i c (some g) s).stateCache = alistSetdefault g s w.stateCache := rfl

theorem addParent_stateCache (w : World) (i p : Nat) (g s : String) :
    (addParent w i p (some g) s).stateCache = alistSetdefault g s w.stateCache := rfl

/-- After a second `setdefault` for the same key nothing changes, because the
first one guaranteed the key a value. -/
theorem alistSetdefault_idem {κ β : Type} [DecidableEq κ] {k : κ} {v v' : β}
    {l : List (κ × β)} :
    alistSetdefault k v' (alistSetdefault k v l) = alistSetdefault k v l :=
  alistSetdefault_of_present alistGet_setdefault_self

/-- The state cache after a `connect` under `(g, s)`: one `setdefault g s`. -/
theorem connect_stateCache (w : World) (i t : Nat) (g s : String) (dir : Int) :
    (connect w i t (some (g, s)) dir).stateCache = alistSetdefault g s w.stateCache := by
  unfold connect
  by_cases h₁ : dir ≤ 0 <;> by_cases h₂ : dir ≥ 0
  · simp only [h₁, h₂, if_pos]
    rw [addChild_stateCache, addParent_stateCache, addParent_stateCache,
      addChild_stateCache, alistSetdefault_idem, alistSetdefault_idem,
      alistSetdefault_idem]
  · simp only [h₁, h₂, if_pos, if_neg, ite_false]
    rw [addParent_stateCache, addChild_stateCache, alistSetdefault_idem]
  · simp only [h₁, h₂, ite_false, if_pos]
    rw [addChild_stateCache, addParent_stateCache, alistSetdefault_idem]
  · exact absurd (Int.le_of_not_le h₁) h₂

/-- Claim C1, amended: a `connect` under `(g, s)` not only files the edge into
bucket `s` — it also `setdefault`s the shared state cache, so when group `g`
has never been set (nor seen by an earlier constrained connect) the connect
itself installs `s` as `g`'s active value, and the resolved view consults
bucket `s` from then on; a value already present for `g` is preserved. -/
theorem c1_amended : ∀ (w : World) (i t : Nat) (g s : String) (dir : Int),
    (alistGet g w.stateCache = none →
      alistGet g (connect w i t (some (g, s)) dir).stateCache = some s)
    ∧ (∀ s₀, alistGet g w.stateCache = some s₀ →
      alistGet g (connect w i t (some (g, s)) dir).stateCache = some s₀) := by
  intro w i t g s dir
  constructor
  · intro h
    rw [connect_stateCache, alistGet_setdefault_self, h]
    rfl
  · intro s₀ h
    rw [connect_stateCache, alistGet_setdefault_self, h]
    rfl

/-- Witness for C1 (amended) on the concrete two-node build. -/
theorem c1_witness :
    alistGet "g" (connect wPair 0 1 (some ("g", "s")) (-1)).stateCache = some "s" :=
  (c1_amended wPair 0 1 "g" "s" (-1)).1 (by decide)

/-! The shared registry (claim C10). -/

/-- Claim C10: `Segment._nodes` is one process-wide map.  (1) Constructing a
segment never registers it; (2) in the concrete two-graph build `wShared`,
where two independently built graphs both use the name "X", the registry keeps
the first object (id 0) for "X" even though the second graph's "X" is the
distinct object id 2, so (3) name resolution — as used to seed sources in
`_build_flow_rates_between` — hits graph 1's object from a graph 2 query, and
(4) a never-connected segment is absent from the registry. -/
theorem c10_registry :
    (∀ (w : World) (n : String) (v : ℚ), ((newSegment w n v).1).registry = w.registry)
    ∧ (alistGet "X" wShared.registry = some 0
       ∧ segName wShared 0 = "X" ∧ segName wShared 2 = "X" ∧ (2 : Nat) ≠ 0)
    ∧ (segRate (seedRates wShared [("X", 7)]) 0 = 7
       ∧ segRate (seedRates wShared [("X", 7)]) 2 = 0)
    ∧ alistGet "X" ((newSegment emptyWorld "X" 1).1).registry = none := by
  refine ⟨fun w n v => rfl, ⟨by decide, by decide, by decide, by decide⟩,
    ⟨by decide, by decide⟩, by decide⟩

/-! Properties of the depth-first search `dfs` / `traverse`. -/

/-- A constantly-false condition yields no results (whatever the topology and
fuel): nothing is ever reported, because reporting is guarded by the
condition. -/
theorem dfs_false_nil {w : World} {t : Nat → Bool} {dir : Int} {ign : Bool}
    (ht : ∀ j, t j = false) :
    ∀ (fuel i : Nat) (visited path : List Nat),
      (dfs w t dir ign fuel i visited path).1 = [] := by
  intro fuel
  induction fuel with
  | zero => intro i visited path; rfl
  | succ fuel ih =>
    intro i visited path
    rw [dfs]
    simp only [ht i, if_false, List.nil_append]
    rw [List.eq_nil_iff_forall_not_mem]
    intro pr hpr
    rcases mem_mergePairs_fst.mp hpr with ⟨p, hp, hpr'⟩
    rcases List.mem_map.mp hp with ⟨nb, _, rfl⟩
    by_cases hv : nb ∈ listInsert i visited
    · simp only [hv, if_pos] at hpr'
      exact absurd hpr' (by simp)
    · simp only [hv, if_neg, ite_false] at hpr'
      rw [ih] at hpr'
      exact absurd hpr' (by simp)

/-- Claim C2 (the code as written): the default `traverse` condition
`lambda n: not n.has_children` negates an uncalled bound method — a truthy
object — so it holds of no node, and `traverse()` with the default condition
returns the empty list on every graph; in particular the childless node of
`wLeaf` (a leaf) is not reported. -/
theorem c2_default_traverse_empty :
    (∀ (w : World) (i : Nat) (dir : Int) (ign : Bool), traverse w i none dir ign = [])
    ∧ traverse wLeaf 0 none (-1) false = []
    ∧ hasChildren wLeaf 0 false = 0 := by
  refine ⟨fun w i dir ign => ?_, by decide, by decide⟩
  exact dfs_false_nil (fun j => rfl) (w.nodes.length + 1) i [] []

/-- Soundness of one `_traverse` call: under the call invariant (`visited` and
`path` hold the same nodes, `path` is duplicate-free, the current node is
fresh), every reported pair extends the incoming path by the current node,
its path is duplicate-free, ends at the reported node, and that node satisfies
the condition. -/
theorem dfs_sound {w : World} {t : Nat → Bool} {dir : Int} {ign : Bool} :
    ∀ (fuel i : Nat) (visited path : List Nat),
      (∀ x, x ∈ visited ↔ x ∈ path) → path.Nodup → i ∉ visited →
      ∀ pr ∈ (dfs w t dir ign fuel i visited path).1,
        (∃ q, pr.2 = path ++ i :: q) ∧ pr.2.Nodup ∧ pr.2.getLast? = some pr.1
          ∧ t pr.1 = true := by
  intro fuel
  induction fuel with
  | zero =>
    intro i visited path _ _ _ pr hpr
    exact absurd hpr (by simp [dfs])
  | succ fuel ih =>
    intro i visited path hvp hnd hni pr hpr
    rw [dfs] at hpr
    simp only [List.mem_append] at hpr
    have hip : i ∉ path := fun h => hni ((hvp i).mpr h)
    have hnd' : (path ++ [i]).Nodup := by
      simp [List.nodup_append, hnd, hip]
    rcases hpr with hown | hsub
    · split at hown
      case isTrue hti =>
        simp only [List.mem_singleton] at hown
        subst hown
        exact ⟨⟨[], by simp⟩, hnd', by simp [List.getLast?_concat], hti⟩
      case isFalse => exact absurd hown (by simp)
    · rcases mem_mergePairs_fst.mp hsub with ⟨p, hp, hpr'⟩
      rcases List.mem_map.mp hp with ⟨nb, _, rfl⟩
      by_cases hv : nb ∈ listInsert i visited
      · simp only [hv, if_pos] at hpr'
        exact absurd hpr' (by simp)
      · simp only [hv, if_neg, ite_false] at hpr'
        have hvp' : ∀ x, x ∈ listInsert i visited ↔ x ∈ path ++ [i] := by
          intro x
          rw [mem_listInsert]
          simp only [List.mem_append, List.mem_singleton, hvp x]
          tauto
        rcases ih nb (listInsert i visited) (path ++ [i]) hvp' hnd' hv pr hpr' with
          ⟨⟨q, hq⟩, h2, h3, h4⟩
        refine ⟨⟨nb :: q, ?_⟩, h2, h3, h4⟩
        rw [hq]
        simp

theorem getD_ge {α : Type} : ∀ (l : List α) (k : Nat) (d : α), l.length ≤ k → l.getD k d = d := by
  intro l
  induction l with
  | nil => intro k d _; cases k <;> rfl
  | cons a t ih =>
    intro k d hk
    cases k with
    | zero => simp at hk
    | succ k => exact ih k d (Nat.le_of_succ_le_succ hk)

theorem getNode_ge {w : World} {j : Nat} (h : w.nodes.length ≤ j) : getNode w j = default :=
  getD_ge w.nodes j default h

/-- Members of any view of `connections` occur in some bucket of the node. -/
theorem connections_mem_bucket {w : World} {i : Nat} {ign : Bool} {x : Nat} :
    (x ∈ (connections w i ign).children →
      ∃ es ∈ (getNode w i).conns.map Prod.snd, x ∈ es.children)
    ∧ (x ∈ (connections w i ign).parents →
      ∃ es ∈ (getNode w i).conns.map Prod.snd, x ∈ es.parents) := by
  cases ign
  · exact connections_resolved_mem_bucket
  · constructor
    · intro hx
      rw [show connections w i true =
          ((getNode w i).conns.map Prod.snd).foldl EdgeSet.add EdgeSet.empty from rfl,
        foldlAdd_children_mem] at hx
      rcases hx with hx | hx
      · exact absurd hx (by simp [EdgeSet.empty])
      · exact hx
    · intro hx
      rw [show connections w i true =
          ((getNode w i).conns.map Prod.snd).foldl EdgeSet.add EdgeSet.empty from rfl,
        foldlAdd_parents_mem] at hx
      rcases hx with hx | hx
      · exact absurd hx (by simp [EdgeSet.empty])
      · exact hx

/-- The boolean wellformedness check implies the edge bound for every id:
allocated nodes by the check itself, unallocated ids vacuously (their data is
the default, which has no buckets). -/
theorem wfBoundedB_spec {w : World} (h : wfBoundedB w = true) :
    ∀ j, ∀ pe ∈ (getNode w j).conns,
      (∀ x ∈ pe.2.children, x < w.nodes.length)
      ∧ (∀ x ∈ pe.2.parents, x < w.nodes.length) := by
  intro j pe hpe
  by_cases hj : j < w.nodes.length
  · unfold wfBoundedB at h
    rw [List.all_eq_true] at h
    have hj' := h j (List.mem_range.mpr hj)
    rw [List.all_eq_true] at hj'
    have hpe' := hj' pe hpe
    rw [Bool.and_eq_true, List.all_eq_true, List.all_eq_true] at hpe'
    exact ⟨fun x hx => of_decide_eq_true (hpe'.1 x hx),
      fun x hx => of_decide_eq_true (hpe'.2 x hx)⟩
  · rw [getNode_ge (Nat.le_of_not_lt hj)] at hpe
    exact absurd hpe (by simp [default])

/-- Every node a `_traverse` call can report or walk through is an allocated
id, provided the graph's edges point at allocated ids. -/
theorem dfs_bounded {w : World} {t : Nat → Bool} {dir : Int} {ign : Bool}
    (hwf : ∀ j, ∀ pe ∈ (getNode w j).conns,
      (∀ x ∈ pe.2.children, x < w.nodes.length)
      ∧ (∀ x ∈ pe.2.parents, x < w.nodes.length)) :
    ∀ (fuel i : Nat) (visited path : List Nat),
      i < w.nodes.length → (∀ x ∈ path, x < w.nodes.length) →
      ∀ pr ∈ (dfs w t dir ign fuel i visited path).1, ∀ x ∈ pr.2, x < w.nodes.length := by
  intro fuel
  induction fuel with
  | zero =>
    intro i visited path _ _ pr hpr
    exact absurd hpr (by simp [dfs])
  | succ fuel ih =>
    intro i visited path hi hpath pr hpr
    rw [dfs] at hpr
    simp only [List.mem_append] at hpr
    have hpath' : ∀ x ∈ path ++ [i], x < w.nodes.length := by
      intro x hx
      rcases List.mem_append.mp hx with hx | hx
      · exact hpath x hx
      · rw [List.mem_singleton] at hx
        exact hx ▸ hi
    rcases hpr with hown | hsub
    · split at hown
      case isTrue =>
        simp only [List.mem_singleton] at hown
        subst hown
        exact hpath'
      case isFalse => exact absurd hown (by simp)
    · rcases mem_mergePairs_fst.mp hsub with ⟨p, hp, hpr'⟩
      rcases List.mem_map.mp hp with ⟨nb, hnbsp, rfl⟩
      by_cases hv : nb ∈ listInsert i visited
      · simp only [hv, if_pos] at hpr'
        exact absurd hpr' (by simp)
      · simp only [hv, if_neg, ite_false] at hpr'
        have hnb : nb < w.nodes.length := by
          rcases mem_listUnion.mp hnbsp with hnb | hnb
          · split at hnb
            · rcases connections_mem_bucket.1 hnb with ⟨es, hes, hxe⟩
              rcases List.mem_map.mp hes with ⟨pe, hpe, rfl⟩
              exact (hwf i pe hpe).1 nb hxe
            · exact absurd hnb (by simp)
          · split at hnb
            · rcases connections_mem_bucket.2 hnb with ⟨es, hes, hxe⟩
              rcases List.mem_map.mp hes with ⟨pe, hpe, rfl⟩
              exact (hwf i pe hpe).2 nb hxe
            · exact absurd hnb (by simp)
        exact ih nb (listInsert i visited) (path ++ [i]) hnb hpath' pr hpr'

/-- Counterexample to claim C4 as stated: on the diamond `wDiamond` a single
`traverse` call enters node 3 (D) twice — once along A,B,D and once along
A,C,D — because `_traverse` removes a node from `visited` when backtracking.
The visit log records every execution of `visited.add(self)`. -/
theorem c4_counterexample :
    2 ≤ (traverseLog wDiamond 0 none (-1) false).count 3 := by decide

/-- Claim C4, amended: within one *reported path* no node repeats (the visited
set blocks re-entry only while a node is on the current path), so each reported
path is duplicate-free and its length is at most the number of nodes of the
graph; over the whole call, however, a node may be entered several times, once
per distinct simple path reaching it. -/
theorem c4_amended : ∀ (w : World) (i : Nat) (cond : Option (Nat → Bool)) (dir : Int)
    (ign : Bool), wfBoundedB w = true → i < w.nodes.length →
    ∀ pr ∈ traverse w i cond dir ign, pr.2.Nodup ∧ pr.2.length ≤ w.nodes.length := by
  intro w i cond dir ign hwf hi pr hpr
  have hsound := dfs_sound (w.nodes.length + 1) i [] []
    (fun x => by simp) List.nodup_nil (by simp) pr hpr
  have hbound := dfs_bounded (wfBoundedB_spec hwf) (w.nodes.length + 1) i [] []
    hi (by simp) pr hpr
  refine ⟨hsound.2.1, ?_⟩
  have hcard : pr.2.toFinset.card = pr.2.length :=
    List.toFinset_card_of_nodup hsound.2.1
  have hsub : pr.2.toFinset ⊆ Finset.range w.nodes.length := by
    intro x hx
    exact Finset.mem_range.mpr (hbound x (List.mem_toFinset.mp hx))
  calc pr.2.length = pr.2.toFinset.card := hcard.symm
    _ ≤ (Finset.range w.nodes.length).card := Finset.card_le_card hsub
    _ = w.nodes.length := Finset.card_range _

/-- Witness for C4 (amended): the reported pair `(3, [0, 1, 3])` of the
diamond's exhaustive traversal has a duplicate-free path of length ≤ 4. -/
theorem c4_witness :
    ((3, [0, 1, 3]) : Nat × List Nat).2.Nodup
    ∧ ((3, [0, 1, 3]) : Nat × List Nat).2.length ≤ wDiamond.nodes.length :=
  c4_amended wDiamond 0 (some fun _ => true) (-1) false (by decide) (by decide)
    (3, [0, 1, 3]) (by decide)

/-- When node `i`'s name is unique to it, the self-query traversal finds
exactly one match: `i` itself with the one-element path.  The root reports
itself before recursing, and no deeper report can end at `i` again because the
path would have to repeat `i`. -/
theorem dfs_self_only {w : World} {i : Nat} {dir : Int}
    (huniq : ∀ j, segName w j = segName w i → j = i) :
    ∀ fuel : Nat,
      (dfs w (fun j => segName w j == segName w i) dir false (fuel + 1) i [] []).1
        = [(i, [i])] := by
  intro fuel
  rw [dfs]
  have hself : (segName w i == segName w i) = true := by simp
  rw [hself]
  simp only [if_true, List.nil_append]
  have hsub : (mergePairs ((listUnion
      (if dir ≤ 0 then (connections w i false).children else [])
      (if dir ≥ 0 then (connections w i false).parents else [])).map fun nb =>
        if nb ∈ listInsert i [] then (([], []) : List (Nat × List Nat) × List Nat)
        else dfs w (fun j => segName w j == segName w i) dir false fuel nb
          (listInsert i []) [i])).1 = [] := by
    rw [List.eq_nil_iff_forall_not_mem]
    intro pr hpr
    rcases mem_mergePairs_fst.mp hpr with ⟨p, hp, hpr'⟩
    rcases List.mem_map.mp hp with ⟨nb, _, rfl⟩
    by_cases hv : nb ∈ listInsert i []
    · simp only [hv, if_pos] at hpr'
      exact absurd hpr' (by simp)
    · simp only [hv, if_neg, ite_false] at hpr'
      have hins : listInsert i ([] : List Nat) = [i] := rfl
      rw [hins] at hpr'
      rcases dfs_sound fuel nb [i] [i] (fun x => Iff.rfl) (List.nodup_singleton i)
        (hins ▸ hv) pr hpr' with ⟨⟨q, hq⟩, hnd, hlast, hcond⟩
      have hpr1 : pr.1 = i := huniq pr.1 (by simpa using hcond)
      rw [hq, hpr1] at hlast
      have : ([i] ++ nb :: q).getLast? = (nb :: q).getLast? :=
        List.getLast?_append_cons [i] nb q
      rw [this] at hlast
      rcases List.mem_getLast?_eq_getLast hlast with ⟨hne, hlast'⟩
      have hmem : i ∈ nb :: q := hlast' ▸ List.getLast_mem hne
      rw [hq] at hnd
      rw [List.nodup_append] at hnd
      exact hnd.2.2 (List.mem_singleton_self i) hmem
  rw [hsub, List.append_nil]

/-- Claim C9: for a node whose name no other object carries, the self-query
`volume_to(X.name)` finds exactly the path `[X]` and returns
`volume(X) - volume(X) = 0`, in any state configuration, cycles included. -/
theorem c9_selfVolumeZero : ∀ (w : World) (i : Nat) (dir : Int),
    (∀ j, segName w j = segName w i → j = i) →
    volumeTo w i (segName w i) dir = .ok (some 0) := by
  intro w i dir huniq
  have htrav : traverse w i (some fun j => segName w j == segName w i) dir false
      = [(i, [i])] := by
    show (dfs w (resolveCond w (some fun j => segName w j == segName w i)) dir false
      (w.nodes.length + 1) i [] []).1 = _
    exact dfs_self_only huniq w.nodes.length
  show (match traverse w i (some fun j => segName w j == segName w i) dir false with
    | [] => (Except.ok none : Except FlowErr (Option ℚ))
    | (fin, p) :: other =>
      if other.isEmpty then
        .ok (some ((p.foldl (fun acc j => acc + segVolume w j) 0) - segVolume w fin))
      else
        .error .ambiguousPath) = .ok (some 0)
  rw [htrav]
  simp

/-- Witness for C9 on the single allocated node of `wLeaf` (name "A"). -/
theorem c9_witness : volumeTo wLeaf 0 "A" (-1) = .ok (some 0) := by
  have h := c9_selfVolumeZero wLeaf 0 (-1) ?_
  · exact h
  · intro j hj
    match j with
    | 0 => rfl
    | Nat.succ n =>
      exact absurd hj (by
        show ¬ segName wLeaf (n + 1) = segName wLeaf 0
        rw [show segName wLeaf (n + 1) = "" from rfl]
        decide)

/-- Claim C5: `volume_to` returns absent exactly when the named-target
traversal finds no path, raises `AmbiguousPathError` exactly when it finds
more than one (never picking one silently), and otherwise computes a volume;
absent is a different value from a computed 0. -/
theorem c5_volumeTo_trichotomy : ∀ (w : World) (i : Nat) (tn : String) (dir : Int),
    (volumeTo w i tn dir = .ok none ↔
      traverse w i (some fun j => segName w j == tn) dir false = [])
    ∧ (volumeTo w i tn dir = .error .ambiguousPath ↔
      2 ≤ (traverse w i (some fun j => segName w j == tn) dir false).length)
    ∧ ((traverse w i (some fun j => segName w j == tn) dir false).length = 1 →
      ∃ v, volumeTo w i tn dir = .ok (some v))
    ∧ (.ok none : Except FlowErr (Option ℚ)) ≠ .ok (some 0) := by
  intro w i tn dir
  have hv : volumeTo w i tn dir =
    (match traverse w i (some fun j => segName w j == tn) dir false with
    | [] => (Except.ok none : Except FlowErr (Option ℚ))
    | (fin, p) :: other =>
      if other.isEmpty then
        .ok (some ((p.foldl (fun acc j => acc + segVolume w j) 0) - segVolume w fin))
      else
        .error .ambiguousPath) := rfl
  rcases htr : traverse w i (some fun j => segName w j == tn) dir false with
    _ | ⟨⟨fin, p⟩, other⟩
  · rw [htr] at hv
    refine ⟨by simp [hv], by simp [hv, htr], by simp [htr], by simp⟩
  · rw [htr] at hv
    rcases other with _ | ⟨o, os⟩
    · simp only [List.isEmpty_nil, if_true] at hv
      exact ⟨by simp [hv], by simp [hv, htr], fun _ => ⟨_, hv⟩, by simp⟩
    · simp only [List.isEmpty_cons, if_false, Bool.false_eq_true] at hv
      refine ⟨by simp [hv], ?_, by simp [htr], by simp⟩
      constructor
      · intro _
        simp only [List.length_cons]
        omega
      · intro _
        exact hv
  
/-- Witness for C5: on the two-node chain A → B the traversal to "B" finds one
path and `volume_to` computes a value. -/
theorem c5_witness : ∃ v, volumeTo wAB 0 "B" (-1) = .ok (some v) :=
  (c5_volumeTo_trichotomy wAB 0 "B" (-1)).2.2.1 (by decide)

/-! Flow-rate scratch state (claim C3). -/

theorem getD_set_self {α : Type} :
    ∀ (l : List α) (k : Nat) (x d : α),
      (l.set k x).getD k d = if k < l.length then x else d := by
  intro l
  induction l with
  | nil => intro k x d; cases k <;> rfl
  | cons a t ih =>
    intro k x d
    cases k with
    | zero => simp
    | succ k =>
      show (t.set k x).getD k d = _
      rw [ih]
      simp

theorem getD_set_other {α : Type} :
    ∀ (l : List α) (k j : Nat) (x d : α), j ≠ k → (l.set k x).getD j d = l.getD j d := by
  intro l
  induction l with
  | nil => intro k j x d _; cases k <;> rfl
  | cons a t ih =>
    intro k j x d hjk
    cases k with
    | zero =>
      cases j with
      | zero => exact absurd rfl hjk
      | succ j => rfl
    | succ k =>
      cases j with
      | zero => rfl
      | succ j =>
        show (t.set k x).getD j d = _
        exact ih k j x d (fun h => hjk (by rw [h]))

/-- Writing a zero rate leaves a zero rate at every node: the written node gets
0 (an unallocated id reads 0 from the default object anyway), others keep
their rate. -/
theorem segRate_setZero (w : World) (k j : Nat) :
    segRate (setSegRate w k 0) j = if j = k then 0 else segRate w j := by
  by_cases hjk : j = k
  · subst hjk
    show ((w.nodes.set j _).getD j default).flowRate = _
    rw [getD_set_self]
    split
    · simp
    · simp [default]
  · show ((w.nodes.set k _).getD j default).flowRate = _
    rw [getD_set_other w.nodes k j _ default hjk, if_neg hjk]
    rfl

theorem foldSetZero_registry :
    ∀ (l : List (String × Nat)) (w : World),
      (l.foldl (fun acc p => setSegRate acc p.2 0) w).registry = w.registry := by
  intro l
  induction l with
  | nil => intro w; rfl
  | cons a t ih => intro w; exact ih (setSegRate w a.2 0)

theorem foldSetZero_preserves :
    ∀ (l : List (String × Nat)) (w : World) (j : Nat), segRate w j = 0 →
      segRate (l.foldl (fun acc p => setSegRate acc p.2 0) w) j = 0 := by
  intro l
  induction l with
  | nil => intro w j h; exact h
  | cons a t ih =>
    intro w j h
    refine ih (setSegRate w a.2 0) j ?_
    rw [segRate_setZero]
    split <;> simp [h]

theorem foldSetZero_zero :
    ∀ (l : List (String × Nat)) (w : World) (j : Nat), j ∈ l.map Prod.snd →
      segRate (l.foldl (fun acc p => setSegRate acc p.2 0) w) j = 0 := by
  intro l
  induction l with
  | nil => intro w j h; simp at h
  | cons a t ih =>
    intro w j h
    rcases List.mem_map.mp h with ⟨p, hp, rfl⟩
    rcases List.mem_cons.mp hp with rfl | hp'
    · refine foldSetZero_preserves t (setSegRate w p.2 0) p.2 ?_
      rw [segRate_setZero]
      simp
    · exact ih (setSegRate w a.2 0) p.2 (List.mem_map.mpr ⟨p, hp', rfl⟩)

/-- `reset_flow_rates` zeroes every registered node and touches nothing else
structural. -/
theorem resetFlowRates_zero (w : World) :
    (∀ p ∈ w.registry, segRate (resetFlowRates w) p.2 = 0)
    ∧ (resetFlowRates w).registry = w.registry := by
  refine ⟨fun p hp => ?_, foldSetZero_registry w.registry w⟩
  exact foldSetZero_zero w.registry w p.2 (List.mem_map.mpr ⟨p, hp, rfl⟩)

/-- Counterexample to claim C3: on the two-route graph, `time_from` raises
`AmbiguousPathError`, and afterwards the seeded source S still carries flow
rate 60 (not 0) while being a registered node — the reset does not run on the
error path, so scratch state leaks out of the failed query. -/
theorem c3_counterexample :
    (timeFrom wTwoRoutes 3 [("S", 60)]).1 = .error .ambiguousPath
    ∧ ("S", 0) ∈ (timeFrom wTwoRoutes 3 [("S", 60)]).2.registry
    ∧ segRate (timeFrom wTwoRoutes 3 [("S", 60)]).2 0 = 60
    ∧ (60 : ℚ) ≠ 0 := by
  refine ⟨by decide, by decide, by decide, by decide⟩

/-- Claim C3, amended: the flow-rate reset runs only on the normal completion
path.  When `time_from` returns a computed duration, and when
`check_flow_stability_from` returns a result, every registered node's rate is
0 afterwards; but when they raise (ambiguous path or non-convergence) the
seeded and propagated rates remain in place — only the reset at the start of
the next propagation query clears them. -/
theorem c3_amended :
    (∀ (w : World) (i : Nat) (src : List (String × ℚ)) (r : ℚ),
      (timeFrom w i src).1 = .ok (some r) →
      ∀ p ∈ (timeFrom w i src).2.registry, segRate (timeFrom w i src).2 p.2 = 0)
    ∧ (∀ (w : World) (i : Nat) (c : ℚ) (src : List (String × ℚ))
        (res : List String × Option ℚ),
      (checkFlowStability w i c src).1 = .ok (some res) →
      ∀ p ∈ (checkFlowStability w i c src).2.registry,
        segRate (checkFlowStability w i c src).2 p.2 = 0) := by
  constructor
  · intro w i src r h
    unfold timeFrom at h ⊢
    split at h
    · simp at h
    · simp at h
    · next srcs paths w' hb =>
      split at h
      · simp at h
      · next ds hd =>
        intro p hp
        have hp' : p ∈ w'.registry := by
          rw [← (resetFlowRates_zero w').2]
          exact hp
        exact (resetFlowRates_zero w').1 p hp'
  · intro w i c src res h
    unfold checkFlowStability at h ⊢
    split at h
    · simp at h
    · simp at h
    · next paths w' hb =>
      intro p hp
      have hp' : p ∈ w'.registry := by
        rw [← (resetFlowRates_zero w').2]
        exact hp
      exact (resetFlowRates_zero w').1 p hp'

/-- Witness for C3 (amended): a successful `time_from` call (unknown source
name, so no sources and duration 0) leaves the registered source S at rate 0. -/
theorem c3_witness : segRate (timeFrom wChain 2 [("NOPE", 60)]).2 0 = 0 :=
  c3_amended.1 wChain 2 [("NOPE", 60)] 0 (by decide) ("S", 0) (by decide)

/-! The fixed-point loop (claim C6). -/

/-- A pass in which no node's rate changed left the state exactly as it was. -/
theorem passRun_noChange :
    ∀ (elems : List Nat) (w : World),
      (passRun w elems).2.any (fun b => b) = false → (passRun w elems).1 = w := by
  intro elems
  induction elems with
  | nil => intro w _; rfl
  | cons e rest ih =>
    intro w h
    rw [passRun] at h ⊢
    by_cases hc : (segRate w e ==
        (connections w e false).parents.foldl (fun acc p => acc + segRate w p) 0) = true
    · rw [if_pos hc] at h ⊢
      simp only [List.any_cons, Bool.false_or] at h
      exact ih w h
    · rw [if_neg hc] at h ⊢
      simp at h

/-- The loop either returns a state that is a genuine fixed point of the pass
(a further pass changes nothing), or it signals non-convergence. -/
theorem fpLoop_dichotomy :
    ∀ (elems : List Nat) (fuel : Nat) (w : World),
      (fpLoop elems fuel w).2 = true →
      passRun (fpLoop elems fuel w).1 elems = ((fpLoop elems fuel w).1, (passRun (fpLoop elems fuel w).1 elems).2)
      ∧ (passRun (fpLoop elems fuel w).1 elems).2.any (fun b => b) = false := by
  intro elems fuel
  induction fuel with
  | zero => intro w h; simp [fpLoop] at h
  | succ fuel ih =>
    intro w h
    rw [fpLoop] at h ⊢
    by_cases hany : ((passRun w elems).2.any fun b => b) = true
    · rw [if_pos hany] at h ⊢
      exact ih _ h
    · rw [if_neg hany] at h ⊢
      simp only [Bool.not_eq_true] at hany
      have hone := passRun_noChange elems w hany
      constructor
      · show passRun (passRun w elems).1 elems = _
        rw [hone]
        exact Prod.ext hone rfl
      · show ((passRun (passRun w elems).1 elems).2.any fun b => b) = false
        rw [hone]
        exact hany

/-- On the cyclic configuration, one pass over the intermediates A, B always
changes B (its new value exceeds its old by the source's 60), whatever the
current scratch rates — so the loop never reaches a quiescent pass. -/
theorem passRun_cyc (a b : ℚ) :
    ∃ (a' b' : ℚ) (f : Bool), passRun (cycRates a b) [1, 2] = (cycRates a' b', [f, true]) := by
  rw [passRun]
  split
  · next hc =>
    have hab : a = 0 + 60 + b := eq_of_beq hc
    rw [passRun]
    split
    · next hc2 =>
      have hb : b = 0 + a := eq_of_beq hc2
      exfalso
      rw [hab] at hb
      linarith
    · exact ⟨a, 0 + a, false, rfl⟩
  · rw [passRun]
    split
    · next hc2 =>
      have hb : b = 0 + (0 + 60 + b) := eq_of_beq hc2
      exfalso
      linarith
    · exact ⟨0 + 60 + b, 0 + (0 + 60 + b), true, rfl⟩

theorem fpLoop_cyc_diverges :
    ∀ (fuel : Nat) (a b : ℚ), (fpLoop [1, 2] fuel (cycRates a b)).2 = false := by
  intro fuel
  induction fuel with
  | zero => intro a b; rfl
  | succ fuel ih =>
    intro a b
    rw [fpLoop]
    obtain ⟨a', b', f, hpr⟩ := passRun_cyc a b
    rw [hpr]
    simp only [List.any_cons, List.any_nil, Bool.or_true, Bool.or_false, if_true]
    exact ih a' b'

/-- Claim C6: the fixed-point loop always terminates — whenever it reports
convergence the returned state really is quiescent (one further pass changes
nothing), and otherwise the bounded fuel (the 1000-pass cap of the source)
runs out and the call raises `NonConvergenceError`; in particular on the
cyclic state configuration `wCyc`, fed by the positive source rate 60, the
whole propagation raises `NonConvergenceError` within the cap. -/
theorem c6_fixedPoint_terminates :
    (∀ (elems : List Nat) (fuel : Nat) (w : World),
      (fpLoop elems fuel w).2 = true →
      passRun (fpLoop elems fuel w).1 elems
          = ((fpLoop elems fuel w).1, (passRun (fpLoop elems fuel w).1 elems).2)
        ∧ (passRun (fpLoop elems fuel w).1 elems).2.any (fun b => b) = false)
    ∧ (buildFlowRates wCyc "T" [("S", 60)]).1 = .error .nonConvergence := by
  constructor
  · exact fpLoop_dichotomy
  · have hseed : seedRates (resetFlowRates wCyc) [("S", 60)] = cycRates 0 0 := by decide
    have hscan : sourceScan (cycRates 0 0) "T" [("S", 60)]
        = .ok ([0], [[0, 1, 2, 3]], [("A", 1), ("B", 2)]) := by decide
    unfold buildFlowRates
    rw [show alistGet "T" wCyc.registry = some 3 from by decide]
    simp only [hseed, hscan]
    rw [show List.map Prod.snd ([("A", 1), ("B", 2)] : List (String × Nat)) = [1, 2] from rfl]
    have hdiv := fpLoop_cyc_diverges 1000 0 0
    rcases hfp : fpLoop [1, 2] 1000 (cycRates 0 0) with ⟨w', conv⟩
    rw [hfp] at hdiv
    simp only at hdiv
    subst hdiv
    rfl

/-- Witness for C6 (first conjunct): a loop over no intermediates converges at
once, and the returned state is a fixed point. -/
theorem c6_witness :
    passRun (fpLoop [] 5 emptyWorld).1 []
        = ((fpLoop [] 5 emptyWorld).1, (passRun (fpLoop [] 5 emptyWorld).1 []).2)
      ∧ (passRun (fpLoop [] 5 emptyWorld).1 []).2.any (fun b => b) = false :=
  c6_fixedPoint_terminates.1 [] 5 emptyWorld (by decide)

/-! The stability scan (claim C7). -/

theorem inlets_pos {w : World} {i : Nat} {r : ℚ} (h : r ∈ inletsOf w i) : 0 < r := by
  unfold inletsOf at h
  rcases List.mem_filterMap.mp h with ⟨p, _, hp⟩
  simp only at hp
  split at hp
  · next hpos =>
    rw [Option.some_inj] at hp
    exact hp ▸ hpos
  · simp at hp

/-- Claim C7, amended: a node with no positive-rate parent contributes nothing
to the scan; but a node with exactly one positive-rate parent, while it never
enters the unstable set as long as the critical ratio is at least 1, does feed
the quotient r/r = 1 into the worst-value tracking, raising it to at least 1
(in particular from the initial `-Inf`). -/
theorem c7_amended : ∀ (w : World) (c : ℚ) (acc : List String × Option ℚ) (i : Nat),
    (inletsOf w i = [] → stabilityStep w c acc i = acc)
    ∧ (∀ r : ℚ, inletsOf w i = [r] → 1 ≤ c →
      (stabilityStep w c acc i).1 = acc.1
      ∧ (stabilityStep w c acc i).2 = some (max (acc.2.getD 1) 1)) := by
  intro w c acc i
  constructor
  · intro h
    unfold stabilityStep
    rw [h]
  · intro r h hc
    have hr : 0 < r := inlets_pos (by rw [h]; exact List.mem_singleton_self r)
    have hfq : r / r = 1 := div_self (ne_of_gt hr)
    unfold stabilityStep
    rw [h]
    simp only [List.foldl_nil, hfq]
    rw [if_neg (not_lt.mpr hc)]
    obtain ⟨u, lopt⟩ := acc
    cases lopt with
    | none => exact ⟨rfl, by simp⟩
    | some l => exact ⟨rfl, by simp⟩

/-- Witness for C7 (amended) at the seeded chain: node A has the single
positive inlet 60, and the scan step raises the worst value from `-Inf` to 1
while leaving the unstable set empty. -/
theorem c7_witness :
    (stabilityStep wChainSeeded 10 ([], none) 1).1 = ([] : List String)
    ∧ (stabilityStep wChainSeeded 10 ([], none) 1).2
        = some (max ((none : Option ℚ).getD 1) 1) :=
  (c7_amended wChainSeeded 10 ([], none) 1).2 60 (by decide) (by decide)

theorem passRun_chain_first : passRun (chainRates 0) [1] = (chainRates (0 + 60), [true]) := by
  rw [passRun]
  split
  · next hc =>
    exfalso
    have h0 : (0 : ℚ) = 0 + 60 := eq_of_beq hc
    linarith
  · rfl

theorem passRun_chain_second :
    passRun (chainRates (0 + 60)) [1] = (chainRates (0 + 60), [false]) := by
  rw [passRun]
  split
  · rfl
  · next hc =>
    exact absurd (beq_iff_eq.mpr rfl) hc

theorem fpLoop_chain : fpLoop [1] 1000 (chainRates 0) = (chainRates (0 + 60), true) := by
  show fpLoop [1] (999 + 1) (chainRates 0) = _
  rw [fpLoop, passRun_chain_first]
  simp only [List.any_cons, List.any_nil, Bool.or_false, if_true]
  show fpLoop [1] (998 + 1) (chainRates (0 + 60)) = _
  rw [fpLoop, passRun_chain_second]
  simp only [List.any_cons, List.any_nil, Bool.or_false, Bool.false_eq_true, if_false]

theorem buildFlowRates_chain :
    buildFlowRates wChain "T" [("S", 60)] = (.ok ([0], [[0, 1, 2]]), chainRates 60) := by
  have hw : chainRates (0 + 60) = chainRates 60 := by rw [zero_add]
  unfold buildFlowRates
  rw [show alistGet "T" wChain.registry = some 2 from by decide]
  have hseed : seedRates (resetFlowRates wChain) [("S", 60)] = chainRates 0 := by decide
  have hscan : sourceScan (chainRates 0) "T" [("S", 60)]
      = .ok ([0], [[0, 1, 2]], [("A", 1)]) := by decide
  simp only [hseed, hscan]
  rw [show List.map Prod.snd ([("A", 1)] : List (String × Nat)) = [1] from rfl]
  rw [fpLoop_chain, hw]

theorem stabilityStep_chain_one :
    stabilityStep (chainRates 60) 10 ([], none) 1 = ([], some 1) := by
  unfold stabilityStep
  rw [show inletsOf (chainRates 60) 1 = [60] from by decide]
  simp only [List.foldl_nil]
  rw [show (60 : ℚ) / 60 = 1 from by norm_num]
  rw [if_neg (by norm_num)]

theorem stabilityStep_chain_two :
    stabilityStep (chainRates 60) 10 ([], some 1) 2 = ([], some 1) := by
  unfold stabilityStep
  rw [show inletsOf (chainRates 60) 2 = [60] from by decide]
  simp only [List.foldl_nil]
  rw [show (60 : ℚ) / 60 = 1 from by norm_num]
  rw [if_neg (by norm_num)]
  simp

theorem stabilityScan_chain :
    stabilityScan (chainRates 60) 10 [[0, 1, 2]] = ([], some 1) := by
  show stabilityStep (chainRates 60) 10
    (stabilityStep (chainRates 60) 10
      (stabilityStep (chainRates 60) 10 ([], none) 0) 1) 2 = ([], some 1)
  rw [show stabilityStep (chainRates 60) 10 ([], none) 0 = ([], none) from rfl,
    stabilityStep_chain_one, stabilityStep_chain_two]

/-- Counterexample to claim C7: on the chain S → A → T with the single source
S at rate 60, every node along the collected path has at most one
positive-rate resolved parent, yet `check_flow_stability_from` reports worst
value 1 — not the untouched `-Inf` (`none`) it would report if such nodes
contributed nothing to the worst-ratio tracking. -/
theorem c7_counterexample :
    (inletsOf (buildFlowRates wChain "T" [("S", 60)]).2 0 = []
     ∧ (inletsOf (buildFlowRates wChain "T" [("S", 60)]).2 1).length ≤ 1
     ∧ (inletsOf (buildFlowRates wChain "T" [("S", 60)]).2 2).length ≤ 1)
    ∧ (checkFlowStability wChain 2 10 [("S", 60)]).1 = .ok (some ([], some 1))
    ∧ some (1 : ℚ) ≠ (none : Option ℚ) := by
  refine ⟨⟨?_, ?_, ?_⟩, ?_, by simp⟩
  · rw [buildFlowRates_chain]
    decide
  · rw [buildFlowRates_chain]
    decide
  · rw [buildFlowRates_chain]
    decide
  · unfold checkFlowStability
    rw [show segName wChain 2 = "T" from rfl, buildFlowRates_chain]
    show Except.ok (some (stabilityScan (chainRates 60) 10 [[0, 1, 2]])) = _
    rw [stabilityScan_chain]
